import Mathlib

/-!
Shallow embedding of the request-shaping layer of the blueprint-app
repository: the input validation utilities (`src/utils/validation.js`) and
the rate limiter (`src/utils/rateLimiter.js`).

Modelling conventions:
* JavaScript strings are modelled as `List Char` (sequences of Unicode
  scalar values); error messages and map keys are Lean `String`s.
* JavaScript whitespace (`String.trim`, the regex class `\s`) is modelled
  by the ASCII whitespace characters space, tab, newline, carriage return.
* `Date.now()` timestamps and attempt counters are modelled as `Nat`.
* The `Map` held by the rate limiter is modelled as an insertion-ordered
  association list.
-/

set_option autoImplicit false

namespace Blueprint

/-- A JavaScript value as far as the validation utilities observe it:
either a string, or one of the non-string values
(`typeof x !== 'string'`). -/
inductive JsVal where
  | str : List Char → JsVal
  | undef : JsVal
  | nullv : JsVal
deriving DecidableEq

/-- Models `typeof v === 'string'`. -/
def JsVal.isStr : JsVal → Bool
  | .str _ => true
  | _ => false

/-- Convenience injection of a Lean string literal into `JsVal`. -/
def jsStr (s : String) : JsVal := .str s.data

/-- The whitespace characters recognised by `String.prototype.trim` and by
the regex class `\s` (restricted to ASCII, see module docstring). -/
def jsWhitespace (c : Char) : Bool := c = ' ' || c = '\t' || c = '\n' || c = '\r'

/-- Models `value.trimStart()`: drop leading whitespace. -/
def trimLeft (l : List Char) : List Char := l.dropWhile jsWhitespace

/-- Models `value.trimEnd()`: drop trailing whitespace. -/
def trimRight (l : List Char) : List Char := (l.reverse.dropWhile jsWhitespace).reverse

/-- Models `value.trim()`: drop leading and trailing whitespace. -/
def jsTrim (l : List Char) : List Char := trimRight (trimLeft l)

/-! ### The sanitizer (`sanitizeInput` in `src/utils/validation.js`)

`sanitizeInput` applies, in order,
`/<script\b[^<]*(?:(?!<\/script>)<[^<]*)*<\/script>/gi` (remove script
blocks), `/<[^>]+>/g` (strip remaining tags), and `.trim()`.
-/

/-- Split a string at its first `'>'`: `splitAtGt l = some (pre, post)`
when `l = pre ++ '>' :: post` with `'>' ∉ pre`, and `none` when `l`
contains no `'>'`.  This is how the regex fragment `[^>]+>` consumes
input: `[^>]+` runs up to the first `'>'`, which must then be present. -/
def splitAtGt : List Char → Option (List Char × List Char)
  | [] => none
  | c :: cs =>
    if c = '>' then some ([], cs)
    else
      match splitAtGt cs with
      | none => none
      | some (pre, post) => some (c :: pre, post)

theorem splitAtGt_some_eq : ∀ {l pre post : List Char},
    splitAtGt l = some (pre, post) → l = pre ++ '>' :: post := by
  intro l
  induction l with
  | nil => intro pre post h; simp [splitAtGt] at h
  | cons c cs ih =>
    intro pre post h
    by_cases hc : c = '>'
    · subst hc
      simp [splitAtGt] at h
      obtain ⟨h1, h2⟩ := h
      subst h1; subst h2; rfl
    · simp [splitAtGt, hc] at h
      cases hsp : splitAtGt cs with
      | none => rw [hsp] at h; simp at h
      | some pp =>
        obtain ⟨p, q⟩ := pp
        rw [hsp] at h
        simp at h
        obtain ⟨h1, h2⟩ := h
        subst h1; subst h2
        simpa using ih hsp

theorem splitAtGt_lt {l pre post : List Char}
    (h : splitAtGt l = some (pre, post)) : post.length < l.length := by
  have := splitAtGt_some_eq h
  subst this
  simp
  omega

theorem splitAtGt_none_iff : ∀ {l : List Char}, splitAtGt l = none ↔ '>' ∉ l := by
  intro l
  induction l with
  | nil => simp [splitAtGt]
  | cons c cs ih =>
    by_cases hc : c = '>'
    · subst hc; simp [splitAtGt]
    · simp only [splitAtGt, if_neg hc]
      cases hsp : splitAtGt cs with
      | none =>
        simp only [List.mem_cons]
        constructor
        · intro _; push_neg; exact ⟨fun h => hc h.symm, ih.1 hsp⟩
        · intro _; trivial
      | some pp =>
        obtain ⟨p, q⟩ := pp
        simp only [List.mem_cons]
        constructor
        · intro h; simp at h
        · intro h
          push_neg at h
          have : splitAtGt cs = none := ih.2 h.2
          rw [this] at hsp; simp at hsp

/-- Function `splitAtGt` succeeds whenever the string contains a `'>'`. -/
theorem splitAtGt_isSome_of_mem {l : List Char} (h : '>' ∈ l) :
    ∃ pre post, splitAtGt l = some (pre, post) := by
  cases hsp : splitAtGt l with
  | none => exact absurd (splitAtGt_none_iff.1 hsp) (by simpa using h)
  | some pp => exact ⟨pp.1, pp.2, by simp [hsp]⟩

/-- One global pass of `replace(/<[^>]+>/g, '')`.  Scanning left to right,
a match starts at a `'<'` exactly when the following text has a first
`'>'` with at least one character in between; the match runs through that
`'>'` and scanning resumes after it. -/
def stripTags : List Char → List Char
  | [] => []
  | c :: cs =>
    if c = '<' then
      match h : splitAtGt cs with
      | some (pre, post) => if pre = [] then c :: stripTags cs else stripTags post
      | none => c :: stripTags cs
    else c :: stripTags cs
termination_by l => l.length
decreasing_by
  · simp
  · have := splitAtGt_lt h; simp; omega
  · simp
  · simp

theorem stripTags_nil : stripTags [] = [] := by rw [stripTags]

theorem stripTags_cons_ne {c : Char} (cs : List Char) (hc : c ≠ '<') :
    stripTags (c :: cs) = c :: stripTags cs := by
  rw [stripTags]; simp [hc]

theorem stripTags_lt_none {cs : List Char} (h : splitAtGt cs = none) :
    stripTags ('<' :: cs) = '<' :: stripTags cs := by
  rw [stripTags]
  split
  · split
    · next pre post heq => rw [h] at heq; cases heq
    · rfl
  · next hlt => exact absurd rfl hlt

theorem stripTags_lt_some_nil {cs post : List Char} (h : splitAtGt cs = some ([], post)) :
    stripTags ('<' :: cs) = '<' :: stripTags cs := by
  rw [stripTags]
  split
  · split
    · next pre post' heq =>
        rw [h] at heq
        cases heq
        simp
    · rfl
  · next hlt => exact absurd rfl hlt

theorem stripTags_lt_some_cons {cs post pre : List Char} {p : Char}
    (h : splitAtGt cs = some (p :: pre, post)) :
    stripTags ('<' :: cs) = stripTags post := by
  rw [stripTags]
  split
  · split
    · next pre' post' heq =>
        rw [h] at heq
        cases heq
        simp
    · next heq => rw [h] at heq; cases heq
  · next hlt => exact absurd rfl hlt

/-- A match of `/<[^>]+>/` starts at `'<' :: cs` exactly when the first
`'>'` of `cs` exists and is not its first character. -/
def tagAt (cs : List Char) : Bool :=
  match splitAtGt cs with
  | some (pre, _) => !pre.isEmpty
  | none => false

/-- Whether the string contains any match of `/<[^>]+>/`. -/
def hasTag : List Char → Bool
  | [] => false
  | c :: cs => (c = '<' && tagAt cs) || hasTag cs

theorem hasTag_cons (c : Char) (cs : List Char) :
    hasTag (c :: cs) = ((c = '<' && tagAt cs) || hasTag cs) := rfl

theorem splitAtGt_append {l pre post b : List Char}
    (h : splitAtGt l = some (pre, post)) :
    splitAtGt (l ++ b) = some (pre, post ++ b) := by
  induction l generalizing pre with
  | nil => simp [splitAtGt] at h
  | cons c cs ih =>
    by_cases hc : c = '>'
    · subst hc
      simp [splitAtGt] at h
      obtain ⟨h1, h2⟩ := h
      subst h1; subst h2
      simp [splitAtGt]
    · simp only [splitAtGt, if_neg hc] at h
      cases hsp : splitAtGt cs with
      | none => rw [hsp] at h; simp at h
      | some pp =>
        obtain ⟨p, q⟩ := pp
        rw [hsp] at h
        simp at h
        obtain ⟨h1, h2⟩ := h
        subst h1; subst h2
        simp only [List.cons_append, splitAtGt, if_neg hc, List.append_eq]
        rw [ih hsp]

theorem tagAt_append {cs b : List Char} (h : tagAt cs = true) :
    tagAt (cs ++ b) = true := by
  unfold tagAt at h ⊢
  cases hsp : splitAtGt cs with
  | none => rw [hsp] at h; simp at h
  | some pp =>
    obtain ⟨pre, post⟩ := pp
    rw [hsp] at h
    rw [splitAtGt_append hsp]
    simpa using h

/-- No tag match in a string means no tag match in any of its prefixes. -/
theorem hasTag_false_of_append_right {u b : List Char}
    (h : hasTag (u ++ b) = false) : hasTag u = false := by
  induction u with
  | nil => rfl
  | cons c cs ih =>
    rw [List.cons_append, hasTag_cons] at h
    rw [hasTag_cons]
    simp only [Bool.or_eq_false_iff, Bool.and_eq_false_iff] at h ⊢
    refine ⟨?_, ih h.2⟩
    rcases h.1 with h1 | h1
    · exact Or.inl h1
    · right
      cases htag : tagAt cs with
      | false => rfl
      | true => rw [tagAt_append htag] at h1; cases h1

/-- No tag match in a string means no tag match in any of its suffixes. -/
theorem hasTag_false_of_append_left {a u : List Char}
    (h : hasTag (a ++ u) = false) : hasTag u = false := by
  induction a with
  | nil => simpa using h
  | cons c cs ih =>
    rw [List.cons_append, hasTag_cons] at h
    simp only [Bool.or_eq_false_iff] at h
    exact ih h.2

/-- The output of the tag stripper is a sublist of its input. -/
theorem stripTags_sublist : ∀ l : List Char, List.Sublist (stripTags l) l
  | [] => by rw [stripTags_nil]
  | c :: cs => by
    by_cases hc : c = '<'
    · subst hc
      cases hsp : splitAtGt cs with
      | none =>
        rw [stripTags_lt_none hsp]
        exact (stripTags_sublist cs).cons₂ '<'
      | some pp =>
        obtain ⟨pre, post⟩ := pp
        cases pre with
        | nil =>
          rw [stripTags_lt_some_nil hsp]
          exact (stripTags_sublist cs).cons₂ '<'
        | cons p pre' =>
          rw [stripTags_lt_some_cons hsp]
          have h1 : List.Sublist (stripTags post) post := stripTags_sublist post
          have h2 : List.Sublist post cs := by
            rw [splitAtGt_some_eq hsp]
            exact ((List.sublist_cons_self '>' post).trans
              (List.sublist_append_right (p :: pre') ('>' :: post)))
          exact (h1.trans h2).cons '<'
    · rw [stripTags_cons_ne cs hc]
      exact (stripTags_sublist cs).cons₂ c
  termination_by l => l.length
  decreasing_by
  · simp
  · simp
  · have := splitAtGt_lt hsp; simp; omega
  · simp

/-- Core idempotence fact for the tag stripper: one global pass of
`replace(/<[^>]+>/g, '')` leaves no match of the tag regex behind. -/
theorem hasTag_stripTags : ∀ l : List Char, hasTag (stripTags l) = false
  | [] => by rw [stripTags_nil]; rfl
  | c :: cs => by
    by_cases hc : c = '<'
    · subst hc
      cases hsp : splitAtGt cs with
      | none =>
        rw [stripTags_lt_none hsp, hasTag_cons]
        have h1 : hasTag (stripTags cs) = false := hasTag_stripTags cs
        have hmem : '>' ∉ cs := splitAtGt_none_iff.1 hsp
        have hmem2 : '>' ∉ stripTags cs := fun hm => hmem ((stripTags_sublist cs).subset hm)
        have h2 : tagAt (stripTags cs) = false := by
          unfold tagAt
          rw [splitAtGt_none_iff.2 hmem2]
        simp [h1, h2]
      | some pp =>
        obtain ⟨pre, post⟩ := pp
        cases pre with
        | nil =>
          have hcs : cs = '>' :: post := by
            have := splitAtGt_some_eq hsp; simpa using this
          subst hcs
          rw [stripTags_lt_some_nil hsp, stripTags_cons_ne post (by decide),
            hasTag_cons, hasTag_cons]
          have h1 : hasTag (stripTags post) = false := hasTag_stripTags post
          have h2 : tagAt ('>' :: stripTags post) = false := by
            unfold tagAt
            simp [splitAtGt]
          simp [h1, h2, show ¬(('>' : Char) = '<') by decide]
        | cons p pre' =>
          rw [stripTags_lt_some_cons hsp]
          exact hasTag_stripTags post
    · rw [stripTags_cons_ne cs hc, hasTag_cons]
      have h1 : hasTag (stripTags cs) = false := hasTag_stripTags cs
      simp [hc, h1]
  termination_by l => l.length
  decreasing_by
  · simp
  · rw [hcs]; simp only [List.length_cons]; omega
  · have := splitAtGt_lt hsp; simp; omega
  · simp

/-- A string with no tag match is a fixed point of the tag stripper. -/
theorem stripTags_of_no_tag : ∀ {l : List Char}, hasTag l = false → stripTags l = l
  | [], _ => stripTags_nil
  | c :: cs, h => by
    by_cases hc : c = '<'
    · subst hc
      rw [hasTag_cons] at h
      simp at h
      obtain ⟨htag, h2⟩ := h
      cases hsp : splitAtGt cs with
      | none => rw [stripTags_lt_none hsp, stripTags_of_no_tag h2]
      | some pp =>
        obtain ⟨pre, post⟩ := pp
        cases pre with
        | nil => rw [stripTags_lt_some_nil hsp, stripTags_of_no_tag h2]
        | cons p pre' =>
          exfalso
          unfold tagAt at htag
          rw [hsp] at htag
          simp at htag
    · rw [hasTag_cons] at h
      simp [hc] at h
      rw [stripTags_cons_ne cs hc, stripTags_of_no_tag h]
  termination_by l => l.length
  decreasing_by
  · simp
  · simp
  · simp

/-! The script-block regex
`/<script\b[^<]*(?:(?!<\/script>)<[^<]*)*<\/script>/gi` matches from a
case-insensitive `<script` followed by a word boundary through the first
case-insensitive `</script>` after it (the inner loop consumes `<`-chunks
only while the close tag has not been reached).  The `i` flag without `u`
canonicalises ASCII letters only, so each pattern position is modelled by
the set of characters it accepts. -/

/-- Predicate `startsWithAny pat l`: the first `pat.length` characters of `l` exist
and each lies in the corresponding character set of `pat`. -/
def startsWithAny : List (List Char) → List Char → Bool
  | [], _ => true
  | _ :: _, [] => false
  | as :: ps, c :: cs => as.any (fun a => decide (c = a)) && startsWithAny ps cs

/-- The opening pattern `<script` under the `i` flag. -/
def scriptOpenPat : List (List Char) :=
  [['<'], ['s', 'S'], ['c', 'C'], ['r', 'R'], ['i', 'I'], ['p', 'P'], ['t', 'T']]

/-- The closing pattern `</script>` under the `i` flag. -/
def scriptClosePat : List (List Char) :=
  [['<'], ['/'], ['s', 'S'], ['c', 'C'], ['r', 'R'], ['i', 'I'], ['p', 'P'], ['t', 'T'], ['>']]

/-- A regex word character (`\w`), used for the `\b` boundary. -/
def isWordChar (c : Char) : Bool :=
  ('a' ≤ c && c ≤ 'z') || ('A' ≤ c && c ≤ 'Z') || ('0' ≤ c && c ≤ '9') || c = '_'

/-- The word boundary `\b` after `<script`: the next character, if any,
is not a word character. -/
def boundaryOk : List Char → Bool
  | [] => true
  | c :: _ => !(isWordChar c)

/-- A match of the script regex starts here: `<script` (case-insensitive)
followed by a word boundary. -/
def scriptOpenAt (l : List Char) : Bool :=
  startsWithAny scriptOpenPat l && boundaryOk (l.drop 7)

/-- Drop through the first case-insensitive `</script>`: returns the text
after its `'>'`, or `none` when there is no close tag. -/
def dropCloseScript : List Char → Option (List Char)
  | [] => none
  | c :: cs =>
    if startsWithAny scriptClosePat (c :: cs) then some ((c :: cs).drop 9)
    else dropCloseScript cs

/-- Whether the string contains a case-insensitive `</script>`. -/
def hasCloseScript : List Char → Bool
  | [] => false
  | c :: cs => startsWithAny scriptClosePat (c :: cs) || hasCloseScript cs

theorem startsWithAny_length : ∀ {pat : List (List Char)} {l : List Char},
    startsWithAny pat l = true → pat.length ≤ l.length := by
  intro pat
  induction pat with
  | nil => intro l _; simp
  | cons as ps ih =>
    intro l h
    cases l with
    | nil => simp [startsWithAny] at h
    | cons c cs =>
      simp only [startsWithAny, Bool.and_eq_true] at h
      simpa using Nat.succ_le_succ (ih h.2)

theorem dropCloseScript_lt : ∀ {l post : List Char},
    dropCloseScript l = some post → post.length < l.length := by
  intro l
  induction l with
  | nil => intro post h; simp [dropCloseScript] at h
  | cons c cs ih =>
    intro post h
    by_cases hs : startsWithAny scriptClosePat (c :: cs) = true
    · rw [dropCloseScript, if_pos hs] at h
      have hlen : 9 ≤ (c :: cs).length := startsWithAny_length hs
      simp at h
      subst h
      simp
      omega
    · rw [dropCloseScript, if_neg hs] at h
      have := ih h
      simp
      omega

theorem dropCloseScript_none_of_no_close : ∀ {l : List Char},
    hasCloseScript l = false → dropCloseScript l = none := by
  intro l
  induction l with
  | nil => intro _; rfl
  | cons c cs ih =>
    intro h
    rw [hasCloseScript] at h
    simp only [Bool.or_eq_false_iff] at h
    rw [dropCloseScript, if_neg (by simp [h.1]), ih h.2]

theorem hasCloseScript_drop_false {l : List Char} (h : hasCloseScript l = false) :
    ∀ n, hasCloseScript (l.drop n) = false := by
  induction l with
  | nil => intro n; simp [List.drop_nil]; rfl
  | cons c cs ih =>
    intro n
    cases n with
    | zero => simpa using h
    | succ m =>
      rw [hasCloseScript] at h
      simp only [Bool.or_eq_false_iff] at h
      exact ih h.2 m

/-- One global pass of the script-block replacement: scan for an opening
`<script\b`; on a match, text through the first `</script>` is removed and
scanning resumes after it; otherwise the character is kept. -/
def stripScripts : List Char → List Char
  | [] => []
  | c :: cs =>
    if scriptOpenAt (c :: cs) then
      match h : dropCloseScript ((c :: cs).drop 7) with
      | some post => stripScripts post
      | none => c :: stripScripts cs
    else c :: stripScripts cs
termination_by l => l.length
decreasing_by
  · have h1 := dropCloseScript_lt h
    rw [List.length_drop] at h1
    simp only [List.length_cons] at h1 ⊢
    omega
  · simp
  · simp

/-- A string with no `</script>` is a fixed point of the script stripper. -/
theorem stripScripts_of_no_close : ∀ {l : List Char},
    hasCloseScript l = false → stripScripts l = l
  | [], _ => by rw [stripScripts]
  | c :: cs, h => by
    have h2 : hasCloseScript cs = false := by
      rw [hasCloseScript] at h
      simp only [Bool.or_eq_false_iff] at h
      exact h.2
    have hdrop : dropCloseScript ((c :: cs).drop 7) = none :=
      dropCloseScript_none_of_no_close (hasCloseScript_drop_false h 7)
    rw [stripScripts]
    split
    · split
      · next post heq => rw [hdrop] at heq; cases heq
      · rw [stripScripts_of_no_close h2]
    · rw [stripScripts_of_no_close h2]
  termination_by l => l.length
  decreasing_by
  · simp
  · simp

theorem startsWithAny_cons_inv {as : List Char} {ps : List (List Char)} {l : List Char}
    (h : startsWithAny (as :: ps) l = true) :
    ∃ c cs, l = c :: cs ∧ (as.any fun a => decide (c = a)) = true ∧
      startsWithAny ps cs = true := by
  cases l with
  | nil => simp [startsWithAny] at h
  | cons c cs =>
    rw [startsWithAny, Bool.and_eq_true] at h
    exact ⟨c, cs, rfl, h.1, h.2⟩

/-- A string beginning with a case-insensitive `</script>` has the shape
`'<' :: '/' :: … :: '>' :: rest`. -/
theorem scriptClose_shape {l : List Char} (h : startsWithAny scriptClosePat l = true) :
    ∃ c2 c3 c4 c5 c6 c7 rest,
      l = '<' :: '/' :: c2 :: c3 :: c4 :: c5 :: c6 :: c7 :: '>' :: rest := by
  obtain ⟨a, l1, rfl, ha, h⟩ := startsWithAny_cons_inv h
  obtain ⟨b, l2, rfl, hb, h⟩ := startsWithAny_cons_inv h
  obtain ⟨c2, l3, rfl, -, h⟩ := startsWithAny_cons_inv h
  obtain ⟨c3, l4, rfl, -, h⟩ := startsWithAny_cons_inv h
  obtain ⟨c4, l5, rfl, -, h⟩ := startsWithAny_cons_inv h
  obtain ⟨c5, l6, rfl, -, h⟩ := startsWithAny_cons_inv h
  obtain ⟨c6, l7, rfl, -, h⟩ := startsWithAny_cons_inv h
  obtain ⟨c7, l8, rfl, -, h⟩ := startsWithAny_cons_inv h
  obtain ⟨e, rest, rfl, he, -⟩ := startsWithAny_cons_inv h
  have ha' : a = '<' := by simpa using ha
  have hb' : b = '/' := by simpa using hb
  have he' : e = '>' := by simpa using he
  subst ha'; subst hb'; subst he'
  exact ⟨c2, c3, c4, c5, c6, c7, rest, rfl⟩

/-- A tag match starts at `d :: ds` whenever `d` is not `'>'` and some
`'>'` occurs in `ds`. -/
theorem tagAt_of {d : Char} {ds : List Char} (hd : ¬d = '>') (hmem : '>' ∈ ds) :
    tagAt (d :: ds) = true := by
  obtain ⟨pre, post, hsp⟩ := splitAtGt_isSome_of_mem hmem
  unfold tagAt
  rw [splitAtGt, if_neg hd, hsp]
  simp

/-- A `</script>` occurrence yields a tag match: its `'<'` is followed by
`/script` (none of which is `'>'`) and then `'>'`. -/
theorem hasTag_of_hasCloseScript : ∀ {l : List Char},
    hasCloseScript l = true → hasTag l = true := by
  intro l
  induction l with
  | nil => intro h; simp [hasCloseScript] at h
  | cons c cs ih =>
    intro h
    rw [hasCloseScript] at h
    rw [hasTag_cons]
    rcases Bool.or_eq_true_iff.1 h with hcl | hrec
    · obtain ⟨c2, c3, c4, c5, c6, c7, rest, hshape⟩ := scriptClose_shape hcl
      rw [List.cons_eq_cons] at hshape
      obtain ⟨hc, hcs⟩ := hshape
      subst hc
      rw [hcs]
      have htag : tagAt ('/' :: c2 :: c3 :: c4 :: c5 :: c6 :: c7 :: '>' :: rest) = true :=
        tagAt_of (by decide) (by simp)
      simp [htag]
    · simp [ih hrec]

/-! ### Trim lemmas -/

theorem dropWhile_dropWhile (p : Char → Bool) (l : List Char) :
    (l.dropWhile p).dropWhile p = l.dropWhile p := by
  cases hd : l.dropWhile p with
  | nil => rfl
  | cons c rest =>
    have hc : p c = false := by
      have h2 := List.head?_dropWhile_not p l
      rw [hd] at h2
      simpa using h2
    rw [List.dropWhile_cons, hc]
    simp

theorem trimLeft_trimLeft (l : List Char) : trimLeft (trimLeft l) = trimLeft l :=
  dropWhile_dropWhile jsWhitespace l

theorem trimRight_trimRight (l : List Char) : trimRight (trimRight l) = trimRight l := by
  unfold trimRight
  rw [List.reverse_reverse, dropWhile_dropWhile]

/-- Here `trimRight l` is the part of `l` before its trailing whitespace. -/
theorem trimRight_append (l : List Char) :
    trimRight l ++ (l.reverse.takeWhile jsWhitespace).reverse = l := by
  unfold trimRight
  rw [← List.reverse_append, List.takeWhile_append_dropWhile, List.reverse_reverse]

/-- Here `trimLeft l` is the part of `l` after its leading whitespace. -/
theorem trimLeft_append (l : List Char) :
    l.takeWhile jsWhitespace ++ trimLeft l = l :=
  List.takeWhile_append_dropWhile jsWhitespace l

theorem trimLeft_of_trimmed_trimRight {m : List Char} (hm : trimLeft m = m) :
    trimLeft (trimRight m) = trimRight m := by
  cases htr : trimRight m with
  | nil => rfl
  | cons c rest =>
    have hdec := trimRight_append m
    rw [htr] at hdec
    have hc : jsWhitespace c = false := by
      have hm' : m.dropWhile jsWhitespace = m := hm
      by_contra hp
      simp only [Bool.not_eq_false] at hp
      rw [← hdec, List.cons_append, List.dropWhile_cons, hp] at hm'
      simp only [if_true] at hm'
      have hlen := congrArg List.length hm'
      have hsub : List.Sublist
          (List.dropWhile jsWhitespace (rest ++ (m.reverse.takeWhile jsWhitespace).reverse))
          (rest ++ (m.reverse.takeWhile jsWhitespace).reverse) :=
        List.dropWhile_sublist jsWhitespace
      have hle := hsub.length_le
      simp only [List.length_cons, List.length_append] at hlen hle
      omega
    unfold trimLeft
    rw [List.dropWhile_cons, hc]
    simp

/-- Trimming is idempotent. -/
theorem jsTrim_jsTrim (l : List Char) : jsTrim (jsTrim l) = jsTrim l := by
  unfold jsTrim
  rw [trimLeft_of_trimmed_trimRight (trimLeft_trimLeft l), trimRight_trimRight]

/-- Trimming cannot create a tag match. -/
theorem hasTag_jsTrim_false {l : List Char} (h : hasTag l = false) :
    hasTag (jsTrim l) = false := by
  unfold jsTrim
  have h1 : hasTag (trimLeft l) = false := by
    have h0 : hasTag (l.takeWhile jsWhitespace ++ trimLeft l) = false := by
      rw [trimLeft_append]; exact h
    exact hasTag_false_of_append_left h0
  have h2 : hasTag (trimRight (trimLeft l) ++
      ((trimLeft l).reverse.takeWhile jsWhitespace).reverse) = false := by
    rw [trimRight_append]; exact h1
  exact hasTag_false_of_append_right h2

/-! ### The sanitizer itself -/

/-- Function `sanitizeInput` from `src/utils/validation.js`: returns `''` for
non-string input; otherwise removes `<script>…</script>` blocks, strips
the remaining angle-bracket tags, and trims surrounding whitespace. -/
def sanitizeInput : JsVal → List Char
  | .str s => jsTrim (stripTags (stripScripts s))
  | _ => []

/-- No tag match survives sanitisation, hence no `</script>` either and
the sanitised text is already trimmed. -/
theorem hasTag_sanitizeInput (v : JsVal) : hasTag (sanitizeInput v) = false := by
  cases v with
  | str s =>
    show hasTag (jsTrim (stripTags (stripScripts s))) = false
    exact hasTag_jsTrim_false (hasTag_stripTags (stripScripts s))
  | undef => rfl
  | nullv => rfl

/-- Claim C1: the sanitizer is idempotent: for every input `x`,
`sanitize(sanitize(x))` equals `sanitize(x)`, where `sanitize` returns `''`
for non-string input and otherwise removes `<script>...</script>` blocks,
strips all remaining angle-bracket tags, and trims surrounding
whitespace. -/
theorem sanitize_idempotent (v : JsVal) :
    sanitizeInput (.str (sanitizeInput v)) = sanitizeInput v := by
  have htag : hasTag (sanitizeInput v) = false := hasTag_sanitizeInput v
  have hclose : hasCloseScript (sanitizeInput v) = false := by
    cases hcl : hasCloseScript (sanitizeInput v) with
    | false => rfl
    | true => rw [hasTag_of_hasCloseScript hcl] at htag; cases htag
  show jsTrim (stripTags (stripScripts (sanitizeInput v))) = sanitizeInput v
  rw [stripScripts_of_no_close hclose, stripTags_of_no_tag htag]
  cases v with
  | str s => exact jsTrim_jsTrim (stripTags (stripScripts s))
  | undef => rfl
  | nullv => rfl

/-! ### The per-field validators (`src/utils/validation.js`) -/

/-- The result `{isValid: boolean, error: string|null}` returned by every
per-field validator. -/
structure VResult where
  isValid : Bool
  error : Option String
deriving DecidableEq

/-- An ASCII letter, the regex class `[a-zA-Z]`. -/
def asciiLetter (c : Char) : Bool := ('a' ≤ c && c ≤ 'z') || ('A' ≤ c && c ≤ 'Z')

/-- An ASCII digit, the regex class `[0-9]`. -/
def asciiDigit (c : Char) : Bool := '0' ≤ c && c ≤ '9'

/-- The character class `[a-zA-Z_]` of the username regex. -/
def usernameChar (c : Char) : Bool := asciiLetter c || c = '_'

/-- Models `/^[a-zA-Z_]+$/.test l`. -/
def usernameRegexTest (l : List Char) : Bool := !l.isEmpty && l.all usernameChar

/-- Function `validateUsername` from `src/utils/validation.js`. -/
def validateUsername : JsVal → VResult
  | .str l =>
    if l.length < 3 then ⟨false, some "Username must be at least 3 characters"⟩
    else if 20 < l.length then ⟨false, some "Username must not exceed 20 characters"⟩
    else if !usernameRegexTest l then
      ⟨false, some "Username can only contain letters and underscores"⟩
    else ⟨true, none⟩
  | _ => ⟨false, some "Username must be a string"⟩

/-- The character class of the password regex
`[a-zA-Z0-9!@#$%^&*()_+\-=\[\]{};':"\\|,.<>\/?]`. -/
def passwordChar (c : Char) : Bool :=
  asciiLetter c || asciiDigit c ||
    ['!', '@', '#', '$', '%', '^', '&', '*', '(', ')', '_', '+', '-', '=',
      '[', ']', '\x7b', '\x7d', ';', '\'', ':', '"', '\\', '|', ',', '.',
      '<', '>', '/', '?'].any (fun a => decide (c = a))

/-- Models `/^[...]+$/.test l` for the password class. -/
def passwordRegexTest (l : List Char) : Bool := !l.isEmpty && l.all passwordChar

/-- Function `validatePassword` from `src/utils/validation.js`. -/
def validatePassword : JsVal → VResult
  | .str l =>
    if l.length < 8 then ⟨false, some "Password must be at least 8 characters"⟩
    else if 20 < l.length then ⟨false, some "Password must not exceed 20 characters"⟩
    else if !passwordRegexTest l then ⟨false, some "Password contains invalid characters"⟩
    else ⟨true, none⟩
  | _ => ⟨false, some "Password must be a string"⟩

/-- The local-part class `[a-zA-Z0-9._%+-]` of the email regex. -/
def emailLocalChar (c : Char) : Bool :=
  asciiLetter c || asciiDigit c || ['.', '_', '%', '+', '-'].any (fun a => decide (c = a))

/-- The domain class `[a-zA-Z0-9.-]` of the email regex. -/
def emailDomainChar (c : Char) : Bool :=
  asciiLetter c || asciiDigit c || c = '.' || c = '-'

/-- Models `/^[a-zA-Z0-9._%+-]+@[a-zA-Z0-9.-]+\.[a-zA-Z]{2,}$/.test l`, expressed
as the existence of a split: an `'@'` preceded by a non-empty run of
local characters, and after it a non-empty run of domain characters, a
`'.'`, and at least two letters running to the end. -/
def emailTailTest (r : List Char) : Bool :=
  (List.range r.length).any fun i =>
    decide (1 ≤ i) && decide (r.getD i ' ' = '.') && (r.take i).all emailDomainChar &&
      decide (2 ≤ r.length - (i + 1)) && (r.drop (i + 1)).all asciiLetter

def emailRegexTest (l : List Char) : Bool :=
  (List.range l.length).any fun i =>
    decide (1 ≤ i) && decide (l.getD i ' ' = '@') && (l.take i).all emailLocalChar &&
      emailTailTest (l.drop (i + 1))

/-- Function `validateEmail` from `src/utils/validation.js`. -/
def validateEmail : JsVal → VResult
  | .str l =>
    if !emailRegexTest l then ⟨false, some "Please enter a valid email address"⟩
    else if 254 < l.length then ⟨false, some "Email address is too long"⟩
    else ⟨true, none⟩
  | _ => ⟨false, some "Email must be a string"⟩

/-- The character class `[a-zA-ZÀ-ÿ\s]` of the name regex: ASCII letters,
the Latin-1 block `À`–`ÿ` (code points 0xC0–0xFF, which also contains `×`
and `÷`), and whitespace. -/
def nameChar (c : Char) : Bool := asciiLetter c || ('À' ≤ c && c ≤ 'ÿ') || jsWhitespace c

/-- Models `/^[a-zA-ZÀ-ÿ\s]+$/.test l`. -/
def nameRegexTest (l : List Char) : Bool := !l.isEmpty && l.all nameChar

/-- Function `validateName` from `src/utils/validation.js`; `fieldName` defaults to
`"Name"` at the JavaScript call sites that omit it. -/
def validateName (v : JsVal) (fieldName : String) : VResult :=
  match v with
  | .str l =>
    let trimmedName := jsTrim l
    if trimmedName.length < 2 then
      ⟨false, some (fieldName ++ " must be at least 2 characters")⟩
    else if 20 < trimmedName.length then
      ⟨false, some (fieldName ++ " must not exceed 20 characters")⟩
    else if !nameRegexTest trimmedName then
      ⟨false, some (fieldName ++ " can only contain letters")⟩
    else ⟨true, none⟩
  | _ => ⟨false, some (fieldName ++ " must be a string")⟩

/-! ### The registration-form validator -/

/-- The fields read off `formData` by `validateRegistrationForm`. -/
structure FormData where
  firstName : JsVal
  lastName : JsVal
  username : JsVal
  email : JsVal
  password : JsVal
  confirmPassword : JsVal
deriving DecidableEq

/-- The `errors` object: a key is present (`some msg`) exactly when the
corresponding assignment in the source ran. -/
structure FormErrors where
  firstName : Option String
  lastName : Option String
  username : Option String
  email : Option String
  password : Option String
  confirmPassword : Option String
deriving DecidableEq

/-- Models `Object.keys(errors).length === 0`. -/
def FormErrors.isEmpty (e : FormErrors) : Bool :=
  e.firstName.isNone && e.lastName.isNone && e.username.isNone && e.email.isNone &&
    e.password.isNone && e.confirmPassword.isNone

/-- The `errors` object with no keys. -/
def FormErrors.empty : FormErrors := ⟨none, none, none, none, none, none⟩

structure FormResult where
  isValid : Bool
  errors : FormErrors
deriving DecidableEq

/-- Function `validateRegistrationForm` from `src/utils/validation.js`, on a
`formData` value whose property reads succeed. -/
def validateRegistrationForm (fd : FormData) : FormResult :=
  let fnv := validateName fd.firstName "First name"
  let lnv := validateName fd.lastName "Last name"
  let unv := validateUsername fd.username
  let emv := validateEmail fd.email
  let pwv := validatePassword fd.password
  let errors : FormErrors :=
    { firstName := if fnv.isValid then none else fnv.error
      lastName := if lnv.isValid then none else lnv.error
      username := if unv.isValid then none else unv.error
      email := if emv.isValid then none else emv.error
      password := if pwv.isValid then none else pwv.error
      confirmPassword :=
        if fd.password = fd.confirmPassword then none else some "Passwords do not match" }
  { isValid := errors.isEmpty, errors := errors }

/-- The error produced by a JavaScript property read on a nullish value. -/
inductive JsError where
  | typeError
deriving DecidableEq

/-- The possible arguments of `validateRegistrationForm`: an object-like
value (property reads yield the stored field, possibly `undefined`) or a
nullish value (`null`/`undefined`), on which `formData.firstName`
throws `TypeError`. -/
inductive FormArg where
  | obj : FormData → FormArg
  | nullish : FormArg

/-- Function `validateRegistrationForm` as called from JavaScript: property access
on a nullish argument throws. -/
def validateRegistrationFormJs : FormArg → Except JsError FormResult
  | .obj fd => .ok (validateRegistrationForm fd)
  | .nullish => .error .typeError

/-! ### The rate limiter (`src/utils/rateLimiter.js`) -/

/-- A rate-limit policy: `{maxRequests, windowMs}`. -/
structure LimitPolicy where
  maxRequests : Nat
  windowMs : Nat
deriving DecidableEq

/-- The static policy table `this.limits`, looked up as
`this.limits[action] || this.limits.default`. -/
def limits (action : String) : LimitPolicy :=
  if action = "login" then ⟨5, 15 * 60 * 1000⟩
  else if action = "register" then ⟨3, 60 * 60 * 1000⟩
  else if action = "passwordReset" then ⟨3, 60 * 60 * 1000⟩
  else ⟨10, 60 * 1000⟩

/-- A tracking entry `{count, resetTime}`. -/
structure Entry where
  count : Nat
  resetTime : Nat
deriving DecidableEq

/-- The limiter's `Map`, as an insertion-ordered association list with
unique keys. -/
abbrev RLState := List (String × Entry)

/-- Models `Map.get`. -/
def mapGet : RLState → String → Option Entry
  | [], _ => none
  | (k, v) :: rest, key => if k = key then some v else mapGet rest key

/-- Models `Map.set`: update in place when the key is present, append
otherwise. -/
def mapSet : RLState → String → Entry → RLState
  | [], key, v => [(key, v)]
  | (k, w) :: rest, key, v =>
    if k = key then (key, v) :: rest else (k, w) :: mapSet rest key v

/-- Models `Map.delete`. -/
def mapDelete (st : RLState) (key : String) : RLState :=
  st.filter fun kd => !(decide (kd.1 = key))

/-- Models `_generateKey(action, identifier)`. -/
def generateKey (action identifier : String) : String :=
  action ++ ":" ++ identifier

/-- Models `Math.ceil(n / k)` on non-negative integers. -/
def ceilDivNat (n k : Nat) : Nat := (n + k - 1) / k

/-- The admit/deny decision `{allowed, retryAfter, message}`. -/
structure CheckResult where
  allowed : Bool
  retryAfter : Option Nat
  message : Option String
deriving DecidableEq

/-- The message built in the denial branch. -/
def denyMessage (retryAfter : Nat) : String :=
  "Too many attempts. Please try again in " ++ toString (ceilDivNat retryAfter 60) ++
    " minutes."

/-- Function `checkLimit(action, identifier)` from `src/utils/rateLimiter.js`, with
`Date.now()` passed explicitly and the mutated `Map` returned. -/
def checkLimit (action identifier : String) (now : Nat) (st : RLState) :
    CheckResult × RLState :=
  let key := generateKey action identifier
  let limit := limits action
  let requestData : Entry :=
    match mapGet st key with
    | some d => if now > d.resetTime then ⟨0, now + limit.windowMs⟩ else d
    | none => ⟨0, now + limit.windowMs⟩
  let incremented : Entry := ⟨requestData.count + 1, requestData.resetTime⟩
  let st' := mapSet st key incremented
  if incremented.count > limit.maxRequests then
    let retryAfter := ceilDivNat (incremented.resetTime - now) 1000
    (⟨false, some retryAfter, some (denyMessage retryAfter)⟩, st')
  else
    (⟨true, none, none⟩, st')

/-- Models `reset(action, identifier)`. -/
def rlReset (action identifier : String) (st : RLState) : RLState :=
  mapDelete st (generateKey action identifier)

/-- Models `cleanup()`: delete every entry with `now > resetTime`. -/
def cleanup (now : Nat) (st : RLState) : RLState :=
  st.filter fun kd => !(decide (now > kd.2.resetTime))

/-! ### Claim C2: the functional specification of `checkLimit` -/

/-- The behaviour claim C2 ascribes to `checkLimit`, written from the
spec's words: the entry is refreshed when absent **or when the current
time is greater than or equal to `windowExpiresAt`**; the count is then
incremented, and the call is denied exactly when the post-increment count
exceeds `maxAttempts`, with
`retryAfterSeconds = ceil((windowExpiresAt - now) / 1000)` and a message
naming `ceil(retryAfterSeconds / 60)` minutes. -/
def checkLimitClaimC2 (action identifier : String) (now : Nat) (st : RLState) :
    CheckResult × RLState :=
  let key := generateKey action identifier
  let policy := limits action
  let entry : Entry :=
    match mapGet st key with
    | none => ⟨0, now + policy.windowMs⟩
    | some e => if now ≥ e.resetTime then ⟨0, now + policy.windowMs⟩ else e
  let counted : Entry := ⟨entry.count + 1, entry.resetTime⟩
  let st' := mapSet st key counted
  if counted.count > policy.maxRequests then
    let retrySecs := ceilDivNat (counted.resetTime - now) 1000
    (⟨false, some retrySecs,
      some ("Too many attempts. Please try again in " ++
        toString (ceilDivNat retrySecs 60) ++ " minutes.")⟩, st')
  else (⟨true, none, none⟩, st')

/-- Claim C2 amended at the window boundary: the entry is refreshed when
absent or when the current time is **strictly greater than**
`windowExpiresAt`, matching the code's `now > requestData.resetTime`. -/
def checkLimitSpecC2 (action identifier : String) (now : Nat) (st : RLState) :
    CheckResult × RLState :=
  let key := generateKey action identifier
  let policy := limits action
  let entry : Entry :=
    match mapGet st key with
    | none => ⟨0, now + policy.windowMs⟩
    | some e => if now > e.resetTime then ⟨0, now + policy.windowMs⟩ else e
  let counted : Entry := ⟨entry.count + 1, entry.resetTime⟩
  let st' := mapSet st key counted
  if counted.count > policy.maxRequests then
    let retrySecs := ceilDivNat (counted.resetTime - now) 1000
    (⟨false, some retrySecs,
      some ("Too many attempts. Please try again in " ++
        toString (ceilDivNat retrySecs 60) ++ " minutes.")⟩, st')
  else (⟨true, none, none⟩, st')

/-- Counterexample to C2 as stated: at the exact expiry instant
(`now = windowExpiresAt`) the code keeps the old window (its test is
`now > resetTime`, not `≥`): a saturated login entry is then denied,
while C2's words demand a fresh window and admission. -/
theorem checkLimit_claim_cex :
    checkLimit "login" "a@b.com" 1000 [("login:a@b.com", ⟨5, 1000⟩)] ≠
      checkLimitClaimC2 "login" "a@b.com" 1000 [("login:a@b.com", ⟨5, 1000⟩)] := by
  decide

/-- Claim C2 (amended: the window is refreshed only when the current time is
strictly greater than the entry's `windowExpiresAt`): `checkLimit` agrees
with the spec-side description on every call. -/
theorem checkLimit_spec_correct (action identifier : String) (now : Nat) (st : RLState) :
    checkLimit action identifier now st = checkLimitSpecC2 action identifier now st := by
  unfold checkLimit checkLimitSpecC2
  dsimp only
  cases h : mapGet st (generateKey action identifier) <;> simp [h, denyMessage]

/-! ### Claim C3: the login scenario -/

/-- The conclusion of claim C3 for identifier `id` and call times
`t1 … t7`: five admissions, a sixth denial with positive
`retryAfterSeconds`, and after `reset` a seventh call admitted as attempt
1 of a window anchored at `t7`. -/
def loginScenarioProp (id : String) (t1 t2 t3 t4 t5 t6 t7 : Nat) : Prop :=
  let r1 := checkLimit "login" id t1 []
  let r2 := checkLimit "login" id t2 r1.2
  let r3 := checkLimit "login" id t3 r2.2
  let r4 := checkLimit "login" id t4 r3.2
  let r5 := checkLimit "login" id t5 r4.2
  let r6 := checkLimit "login" id t6 r5.2
  let r7 := checkLimit "login" id t7 (rlReset "login" id r6.2)
  r1.1.allowed = true ∧ r2.1.allowed = true ∧ r3.1.allowed = true ∧
    r4.1.allowed = true ∧ r5.1.allowed = true ∧ r6.1.allowed = false ∧
    (∃ s, r6.1.retryAfter = some s ∧ 0 < s) ∧ r7.1.allowed = true ∧
    mapGet r7.2 (generateKey "login" id) = some ⟨1, t7 + 900000⟩

/-- Claim C3: under the login policy (5 attempts per 900000 ms), starting
from no entry, the first five `checkLimit("login", id)` calls made
(monotonically) strictly within the window are admitted, the sixth is
denied with `retryAfterSeconds > 0`, and after `reset("login", id)` the
next call is admitted as attempt 1 of a new window. -/
theorem login_scenario (id : String) (t1 t2 t3 t4 t5 t6 t7 : Nat)
    (h12 : t1 ≤ t2) (h23 : t2 ≤ t3) (h34 : t3 ≤ t4) (h45 : t4 ≤ t5) (h56 : t5 ≤ t6)
    (hwin : t6 < t1 + 900000) :
    loginScenarioProp id t1 t2 t3 t4 t5 t6 t7 := by
  have hlim : limits "login" = ⟨5, 900000⟩ := by decide
  set key := generateKey "login" id with hkey
  have e1 : checkLimit "login" id t1 [] = (⟨true, none, none⟩, [(key, ⟨1, t1 + 900000⟩)]) := by
    unfold checkLimit
    rw [← hkey, hlim]
    simp [mapGet, mapSet]
  have step : ∀ (n : Nat) (t : Nat), ¬t > t1 + 900000 → n + 1 ≤ 5 →
      checkLimit "login" id t [(key, ⟨n, t1 + 900000⟩)] =
        (⟨true, none, none⟩, [(key, ⟨n + 1, t1 + 900000⟩)]) := by
    intro n t ht hn
    unfold checkLimit
    rw [← hkey, hlim]
    simp [mapGet, mapSet, ht]
    omega
  have e2 := step 1 t2 (by omega) (by omega)
  have e3 := step 2 t3 (by omega) (by omega)
  have e4 := step 3 t4 (by omega) (by omega)
  have e5 := step 4 t5 (by omega) (by omega)
  have e6 : checkLimit "login" id t6 [(key, ⟨5, t1 + 900000⟩)] =
      (⟨false, some (ceilDivNat (t1 + 900000 - t6) 1000),
        some (denyMessage (ceilDivNat (t1 + 900000 - t6) 1000))⟩,
       [(key, ⟨6, t1 + 900000⟩)]) := by
    unfold checkLimit
    rw [← hkey, hlim]
    simp [mapGet, mapSet, show ¬t6 > t1 + 900000 by omega]
  have hreset : rlReset "login" id [(key, ⟨6, t1 + 900000⟩)] = [] := by
    unfold rlReset mapDelete
    rw [← hkey]
    simp
  have e7 : checkLimit "login" id t7 [] = (⟨true, none, none⟩, [(key, ⟨1, t7 + 900000⟩)]) := by
    unfold checkLimit
    rw [← hkey, hlim]
    simp [mapGet, mapSet]
  unfold loginScenarioProp
  rw [e1]
  dsimp only
  rw [e2]
  dsimp only
  rw [e3]
  dsimp only
  rw [e4]
  dsimp only
  rw [e5]
  dsimp only
  rw [e6]
  dsimp only
  rw [hreset, e7]
  dsimp only
  refine ⟨rfl, rfl, rfl, rfl, rfl, rfl, ⟨ceilDivNat (t1 + 900000 - t6) 1000, rfl, ?_⟩,
    rfl, ?_⟩
  · unfold ceilDivNat
    omega
  · rw [← hkey]
    simp [mapGet]

/-- Witness for C3: the scenario at identifier `"a@b.com"` with calls at
times 0, 1, 2, 3, 4, 5 and a post-reset call at time 0. -/
theorem login_scenario_witness : loginScenarioProp "a@b.com" 0 1 2 3 4 5 0 :=
  login_scenario "a@b.com" 0 1 2 3 4 5 0 (by decide) (by decide) (by decide) (by decide)
    (by decide) (by decide)

/-! ### Map lemmas for the limiter state -/

theorem mapGet_mapSet_self (st : RLState) (k : String) (v : Entry) :
    mapGet (mapSet st k v) k = some v := by
  induction st with
  | nil => simp [mapSet, mapGet]
  | cons kd rest ih =>
    obtain ⟨k', w⟩ := kd
    by_cases hk : k' = k
    · subst hk; simp [mapSet, mapGet]
    · simp [mapSet, mapGet, hk, ih]

theorem mapGet_mapSet_ne (st : RLState) {k k' : String} (v : Entry) (h : k' ≠ k) :
    mapGet (mapSet st k v) k' = mapGet st k' := by
  induction st with
  | nil => simp [mapSet, mapGet, Ne.symm h]
  | cons kd rest ih =>
    obtain ⟨k'', w⟩ := kd
    by_cases hk : k'' = k
    · subst hk; simp [mapSet, mapGet, Ne.symm h]
    · simp [mapSet, mapGet, hk, ih]

theorem mapGet_mapDelete_ne (st : RLState) {k k' : String} (h : k' ≠ k) :
    mapGet (mapDelete st k) k' = mapGet st k' := by
  induction st with
  | nil => rfl
  | cons kd rest ih =>
    obtain ⟨k'', w⟩ := kd
    by_cases hk : k'' = k
    · subst hk
      simp [mapDelete, mapGet, Ne.symm h, List.filter_cons] at ih ⊢
      exact ih
    · by_cases hk' : k'' = k'
      · subst hk'
        simp [mapDelete, mapGet, hk, List.filter_cons]
      · simp [mapDelete, mapGet, hk, hk', List.filter_cons] at ih ⊢
        exact ih

theorem mapGet_eq_none_iff {st : RLState} {k : String} :
    mapGet st k = none ↔ k ∉ st.map Prod.fst := by
  induction st with
  | nil => simp [mapGet]
  | cons kd rest ih =>
    obtain ⟨k', w⟩ := kd
    by_cases hk : k' = k
    · subst hk; simp [mapGet]
    · simp [mapGet, hk, ih, Ne.symm hk]

/-- The entry `checkLimit` stores for its key, as a function of the
previous lookup. -/
def nextEntry (action : String) (now : Nat) : Option Entry → Entry
  | some d =>
    if now > d.resetTime then ⟨1, now + (limits action).windowMs⟩
    else ⟨d.count + 1, d.resetTime⟩
  | none => ⟨1, now + (limits action).windowMs⟩

/-- The state `checkLimit` leaves behind: the entry under its key is
replaced by `nextEntry` and nothing else changes. -/
theorem checkLimit_snd (action identifier : String) (now : Nat) (st : RLState) :
    (checkLimit action identifier now st).2 =
      mapSet st (generateKey action identifier)
        (nextEntry action now (mapGet st (generateKey action identifier))) := by
  unfold checkLimit nextEntry
  dsimp only
  cases h : mapGet st (generateKey action identifier) with
  | none => simp only [h]; split <;> rfl
  | some d =>
    by_cases hexp : now > d.resetTime
    · simp only [h, if_pos hexp]; split <;> rfl
    · simp only [h, if_neg hexp]; split <;> rfl

/-- Claim C8: every `checkLimit` call counts the attempt into the stored
entry, denied calls included; and a call inside a live window (current
time at most `windowExpiresAt`) only increments the count, leaving the
window boundary where the first attempt put it. -/
theorem checkLimit_counts_and_fixed_window (action identifier : String) (now : Nat)
    (st : RLState) :
    (∀ e : Entry, mapGet st (generateKey action identifier) = some e →
      now ≤ e.resetTime →
      mapGet (checkLimit action identifier now st).2 (generateKey action identifier) =
        some ⟨e.count + 1, e.resetTime⟩) ∧
    (mapGet st (generateKey action identifier) = none →
      mapGet (checkLimit action identifier now st).2 (generateKey action identifier) =
        some ⟨1, now + (limits action).windowMs⟩) := by
  constructor
  · intro e he hle
    rw [checkLimit_snd, mapGet_mapSet_self, he]
    simp only [nextEntry]
    rw [if_neg (by omega)]
  · intro hn
    rw [checkLimit_snd, mapGet_mapSet_self, hn]
    rfl

/-- Witness for C8: a live entry `{count 2, expiry 10}` at time 5 becomes
`{count 3, expiry 10}`; a missing entry at time 5 becomes
`{count 1, expiry 5 + window}`. -/
theorem checkLimit_counts_witness :
    mapGet (checkLimit "login" "a" 5 [("login:a", ⟨2, 10⟩)]).2 (generateKey "login" "a") =
      some ⟨3, 10⟩ ∧
    mapGet (checkLimit "login" "a" 5 []).2 (generateKey "login" "a") =
      some ⟨1, 5 + (limits "login").windowMs⟩ :=
  ⟨(checkLimit_counts_and_fixed_window "login" "a" 5 [("login:a", ⟨2, 10⟩)]).1
      ⟨2, 10⟩ (by decide) (by decide),
    (checkLimit_counts_and_fixed_window "login" "a" 5 []).2 (by decide)⟩

/-- Claim C9: `cleanup()` removes exactly the entries whose
`windowExpiresAt` has already passed: looked up afterwards, an expired
entry is gone and a live entry is returned unchanged. -/
theorem cleanup_cons (now : Nat) (kd : String × Entry) (rest : RLState) :
    cleanup now (kd :: rest) =
      if now > kd.2.resetTime then cleanup now rest else kd :: cleanup now rest := by
  unfold cleanup
  rw [List.filter_cons]
  by_cases h : now > kd.2.resetTime
  · simp [h]
  · simp [h]

theorem cleanup_spec (now : Nat) (st : RLState) (k : String)
    (hnd : (st.map Prod.fst).Nodup) :
    mapGet (cleanup now st) k =
      match mapGet st k with
      | none => none
      | some e => if now > e.resetTime then none else some e := by
  revert hnd
  induction st with
  | nil => intro _; rfl
  | cons kd rest ih =>
    intro hnd
    obtain ⟨k', e⟩ := kd
    simp only [List.map_cons, List.nodup_cons] at hnd
    obtain ⟨hk', hrest⟩ := hnd
    rw [cleanup_cons]
    by_cases hexp : now > e.resetTime
    · rw [if_pos hexp]
      by_cases hk : k' = k
      · subst hk
        have hnone : mapGet rest k' = none := mapGet_eq_none_iff.2 hk'
        rw [ih hrest, hnone]
        simp [mapGet, hexp]
      · rw [ih hrest]
        simp [mapGet, hk]
    · rw [if_neg hexp]
      by_cases hk : k' = k
      · subst hk
        simp [mapGet, hexp]
      · simp only [mapGet, if_neg hk]
        exact ih hrest

/-- Witness for C9: at time 10, the entry expiring at 5 is removed and
the entry expiring at 100 is kept unchanged. -/
theorem cleanup_spec_witness :
    mapGet (cleanup 10 [("a", ⟨1, 5⟩), ("b", ⟨2, 100⟩)]) "a" = none ∧
    mapGet (cleanup 10 [("a", ⟨1, 5⟩), ("b", ⟨2, 100⟩)]) "b" = some ⟨2, 100⟩ :=
  ⟨(cleanup_spec 10 [("a", ⟨1, 5⟩), ("b", ⟨2, 100⟩)] "a" (by decide)).trans (by decide),
    (cleanup_spec 10 [("a", ⟨1, 5⟩), ("b", ⟨2, 100⟩)] "b" (by decide)).trans (by decide)⟩

/-- Claim C10: `checkLimit` and `reset` modify at most the entry under
`action ++ ":" ++ identifier`; every other key reads back unchanged.
Distinct pairs can collide exactly through key-string equality — e.g.
`("a:b", "c")` and `("a", "b:c")` share the key `"a:b:c"`, so a call for
the first pair creates the entry the second pair reads. -/
theorem limiter_frame (action identifier : String) (now : Nat) (st : RLState)
    (k' : String) (h : k' ≠ generateKey action identifier) :
    (mapGet (checkLimit action identifier now st).2 k' = mapGet st k' ∧
      mapGet (rlReset action identifier st) k' = mapGet st k') ∧
    (generateKey "a:b" "c" = generateKey "a" "b:c" ∧
      ("a:b", "c") ≠ (("a", "b:c") : String × String) ∧
      mapGet (checkLimit "a:b" "c" 0 []).2 (generateKey "a" "b:c") = some ⟨1, 60000⟩) := by
  refine ⟨⟨?_, ?_⟩, by decide, by decide, by decide⟩
  · rw [checkLimit_snd, mapGet_mapSet_ne _ _ h]
  · exact mapGet_mapDelete_ne st h

/-- Witness for C10: the unrelated key `"x"` is untouched by a
`checkLimit` call and a `reset` for `("login", "a")`. -/
theorem limiter_frame_witness :
    mapGet (checkLimit "login" "a" 0 [("x", ⟨7, 3⟩)]).2 "x" = mapGet [("x", ⟨7, 3⟩)] "x" ∧
    mapGet (rlReset "login" "a" [("x", ⟨7, 3⟩)]) "x" = mapGet [("x", ⟨7, 3⟩)] "x" :=
  (limiter_frame "login" "a" 0 [("x", ⟨7, 3⟩)] "x" (by decide)).1

/-! ### Claim C4: `validateUsername` -/

/-- Counterexample to C4 as stated: the string `"1"` contains a digit, yet
`validateUsername` fails with the `TooShort` message, not the
`InvalidCharacters` one, because length is checked before the character
class. -/
theorem validateUsername_claim_cex :
    ('1' ∈ ['1'] ∧ asciiDigit '1' = true) ∧
    validateUsername (.str ['1']) = ⟨false, some "Username must be at least 3 characters"⟩ ∧
    (validateUsername (.str ['1'])).error ≠
      some "Username can only contain letters and underscores" := by
  decide

/-- Claim C4 (amended: the digit/symbol half is restricted to strings of
length 3 to 20, since the length checks run before the character check):
every such string of letters/underscores is accepted with a null error,
and every such string containing a character outside `[A-Za-z_]` (a digit
or symbol) fails with the `InvalidCharacters` error. -/
theorem validateUsername_inRange (l : List Char) (h3 : 3 ≤ l.length) (h20 : l.length ≤ 20) :
    ((∀ c ∈ l, usernameChar c = true) → validateUsername (.str l) = ⟨true, none⟩) ∧
    ((∃ c ∈ l, usernameChar c = false) →
      validateUsername (.str l) =
        ⟨false, some "Username can only contain letters and underscores"⟩) := by
  have hne : l ≠ [] := by
    intro h
    rw [h] at h3
    simp at h3
  constructor
  · intro hall
    have htest : usernameRegexTest l = true := by
      unfold usernameRegexTest
      rw [Bool.and_eq_true, List.all_eq_true]
      exact ⟨by simpa using hne, hall⟩
    unfold validateUsername
    dsimp only
    rw [if_neg (by omega), if_neg (by omega), if_neg (by simp [htest])]
  · rintro ⟨c, hc, hfc⟩
    have htest : usernameRegexTest l = false := by
      unfold usernameRegexTest
      rw [Bool.and_eq_false_iff]
      right
      rw [← Bool.not_eq_true, List.all_eq_true]
      intro hall
      rw [hall c hc] at hfc
      cases hfc
    unfold validateUsername
    dsimp only
    rw [if_neg (by omega), if_neg (by omega), if_pos (by simp [htest])]

/-- Witness for C4: `"abc"` is accepted; `"a1c"` fails with the
`InvalidCharacters` error. -/
theorem validateUsername_inRange_witness :
    validateUsername (.str ['a', 'b', 'c']) = ⟨true, none⟩ ∧
    validateUsername (.str ['a', '1', 'c']) =
      ⟨false, some "Username can only contain letters and underscores"⟩ :=
  ⟨(validateUsername_inRange ['a', 'b', 'c'] (by decide) (by decide)).1 (by decide),
    (validateUsername_inRange ['a', '1', 'c'] (by decide) (by decide)).2
      ⟨'1', by decide, by decide⟩⟩

/-! ### Claim C5: totality -/

/-- Counterexample to C5 as stated: `validateForm` is not total on every
input — on a nullish argument the property read `formData.firstName`
throws `TypeError` instead of returning a result. -/
theorem validateForm_null_cex :
    ¬∀ f : FormArg, ∃ r, validateRegistrationFormJs f = .ok r := by
  intro h
  obtain ⟨r, hr⟩ := h .nullish
  exact Except.noConfusion hr

/-- Claim C5 (amended: the per-field validators and the sanitizer are total
— any non-string input, `null` and `undefined` included, yields the
`InvalidType` result resp. `''` — and `validateForm` returns a result for
every object-like argument; only a nullish `formData` throws, at the
first property access). -/
theorem validators_total (v : JsVal) (fn : String) (hv : v.isStr = false)
    (fd : FormData) :
    validateUsername v = ⟨false, some "Username must be a string"⟩ ∧
    validatePassword v = ⟨false, some "Password must be a string"⟩ ∧
    validateEmail v = ⟨false, some "Email must be a string"⟩ ∧
    validateName v fn = ⟨false, some (fn ++ " must be a string")⟩ ∧
    sanitizeInput v = [] ∧
    validateRegistrationFormJs (.obj fd) = .ok (validateRegistrationForm fd) ∧
    validateRegistrationFormJs .nullish = .error .typeError := by
  cases v with
  | str l => simp [JsVal.isStr] at hv
  | undef => exact ⟨rfl, rfl, rfl, rfl, rfl, rfl, rfl⟩
  | nullv => exact ⟨rfl, rfl, rfl, rfl, rfl, rfl, rfl⟩

/-- Witness for C5 at `v = null`, `fn = "Name"` and an all-`undefined`
form. -/
theorem validators_total_witness :
    validateUsername .nullv = ⟨false, some "Username must be a string"⟩ ∧
    validatePassword .nullv = ⟨false, some "Password must be a string"⟩ ∧
    validateEmail .nullv = ⟨false, some "Email must be a string"⟩ ∧
    validateName .nullv "Name" = ⟨false, some ("Name" ++ " must be a string")⟩ ∧
    sanitizeInput .nullv = [] ∧
    validateRegistrationFormJs
        (.obj ⟨.undef, .undef, .undef, .undef, .undef, .undef⟩) =
      .ok (validateRegistrationForm ⟨.undef, .undef, .undef, .undef, .undef, .undef⟩) ∧
    validateRegistrationFormJs .nullish = .error .typeError :=
  validators_total .nullv "Name" (by decide) ⟨.undef, .undef, .undef, .undef, .undef, .undef⟩

/-! ### Claim C6: the result invariants -/

/-- Every validator result is either a success with no error or a failure
with a message. -/
def WellFormedResult (r : VResult) : Prop :=
  r = ⟨true, none⟩ ∨ ∃ m, r = ⟨false, some m⟩

theorem validateUsername_shape (v : JsVal) : WellFormedResult (validateUsername v) := by
  cases v with
  | str l =>
    unfold validateUsername
    dsimp only
    split
    · exact Or.inr ⟨_, rfl⟩
    · split
      · exact Or.inr ⟨_, rfl⟩
      · split
        · exact Or.inr ⟨_, rfl⟩
        · exact Or.inl rfl
  | undef => exact Or.inr ⟨_, rfl⟩
  | nullv => exact Or.inr ⟨_, rfl⟩

theorem validatePassword_shape (v : JsVal) : WellFormedResult (validatePassword v) := by
  cases v with
  | str l =>
    unfold validatePassword
    dsimp only
    split
    · exact Or.inr ⟨_, rfl⟩
    · split
      · exact Or.inr ⟨_, rfl⟩
      · split
        · exact Or.inr ⟨_, rfl⟩
        · exact Or.inl rfl
  | undef => exact Or.inr ⟨_, rfl⟩
  | nullv => exact Or.inr ⟨_, rfl⟩

theorem validateEmail_shape (v : JsVal) : WellFormedResult (validateEmail v) := by
  cases v with
  | str l =>
    unfold validateEmail
    dsimp only
    split
    · exact Or.inr ⟨_, rfl⟩
    · split
      · exact Or.inr ⟨_, rfl⟩
      · exact Or.inl rfl
  | undef => exact Or.inr ⟨_, rfl⟩
  | nullv => exact Or.inr ⟨_, rfl⟩

theorem validateName_shape (v : JsVal) (fn : String) :
    WellFormedResult (validateName v fn) := by
  cases v with
  | str l =>
    unfold validateName
    dsimp only
    split
    · exact Or.inr ⟨_, rfl⟩
    · split
      · exact Or.inr ⟨_, rfl⟩
      · split
        · exact Or.inr ⟨_, rfl⟩
        · exact Or.inl rfl
  | undef => exact Or.inr ⟨_, rfl⟩
  | nullv => exact Or.inr ⟨_, rfl⟩

theorem error_none_iff {r : VResult} (hr : WellFormedResult r) :
    (r.error = none ↔ r.isValid = true) := by
  rcases hr with h | ⟨m, h⟩ <;> subst h <;> simp

theorem errKey_none_iff {r : VResult} (hr : WellFormedResult r) :
    ((if r.isValid then none else r.error) = none ↔ r.isValid = true) := by
  rcases hr with h | ⟨m, h⟩ <;> subst h <;> simp

theorem formErrors_isEmpty_iff (e : FormErrors) :
    (e.isEmpty = true ↔ e = FormErrors.empty) := by
  obtain ⟨a, b, c, d, e5, f⟩ := e
  simp [FormErrors.isEmpty, FormErrors.empty, Option.isNone_iff_eq_none]
  tauto

/-- Claim C6: for each per-field validator, `error` is null iff `valid`;
and `validateForm` is valid iff its `errors` object is empty, with each
key present exactly when the corresponding individual check (or the
password/confirmation equality) failed — all checks run, none is
short-circuited. -/
theorem validation_invariants (v : JsVal) (fn : String) (fd : FormData) :
    ((validateUsername v).error = none ↔ (validateUsername v).isValid = true) ∧
    ((validatePassword v).error = none ↔ (validatePassword v).isValid = true) ∧
    ((validateEmail v).error = none ↔ (validateEmail v).isValid = true) ∧
    ((validateName v fn).error = none ↔ (validateName v fn).isValid = true) ∧
    ((validateRegistrationForm fd).isValid = true ↔
      (validateRegistrationForm fd).errors = FormErrors.empty) ∧
    ((validateRegistrationForm fd).errors.firstName = none ↔
      (validateName fd.firstName "First name").isValid = true) ∧
    ((validateRegistrationForm fd).errors.lastName = none ↔
      (validateName fd.lastName "Last name").isValid = true) ∧
    ((validateRegistrationForm fd).errors.username = none ↔
      (validateUsername fd.username).isValid = true) ∧
    ((validateRegistrationForm fd).errors.email = none ↔
      (validateEmail fd.email).isValid = true) ∧
    ((validateRegistrationForm fd).errors.password = none ↔
      (validatePassword fd.password).isValid = true) ∧
    ((validateRegistrationForm fd).errors.confirmPassword = none ↔
      fd.password = fd.confirmPassword) := by
  refine ⟨error_none_iff (validateUsername_shape v),
    error_none_iff (validatePassword_shape v),
    error_none_iff (validateEmail_shape v),
    error_none_iff (validateName_shape v fn), ?_, ?_, ?_, ?_, ?_, ?_, ?_⟩
  · exact formErrors_isEmpty_iff _
  · exact errKey_none_iff (validateName_shape fd.firstName "First name")
  · exact errKey_none_iff (validateName_shape fd.lastName "Last name")
  · exact errKey_none_iff (validateUsername_shape fd.username)
  · exact errKey_none_iff (validateEmail_shape fd.email)
  · exact errKey_none_iff (validatePassword_shape fd.password)
  · by_cases h : fd.password = fd.confirmPassword <;>
      simp [validateRegistrationForm, h]

/-! ### Claim C7: `validateName` -/

/-- The character set named by C7's words: Latin letters, i.e. ASCII
letters plus the accented Latin-1 letters in `À`–`ÿ`, which per Unicode
excludes the two non-letters `×` (U+00D7) and `÷` (U+00F7). -/
def latinLetterClaim (c : Char) : Bool :=
  asciiLetter c || (('À' ≤ c && c ≤ 'ÿ') && !(c = '×') && !(c = '÷'))

/-- Counterexample to C7 as stated: the trimmed value `"A×B"` contains
`×`, which is not a Latin letter and not a space, yet `validateName`
accepts it — the source's regex range `À-ÿ` also admits `×` and `÷`. -/
theorem validateName_claim_cex :
    validateName (.str ['A', '×', 'B']) "Name" = ⟨true, none⟩ ∧
    '×' ∈ jsTrim ['A', '×', 'B'] ∧ latinLetterClaim '×' = false ∧
    jsWhitespace '×' = false := by
  decide

/-- Claim C7 (amended: the accepted character class is the source's
`[a-zA-ZÀ-ÿ\s]` — ASCII letters, the whole Latin-1 range `À`–`ÿ`
including `×` and `÷`, and whitespace anywhere): for every string input,
`validateName` trims surrounding whitespace first, fails `TooShort` when
the trimmed length is below 2, else `TooLong` when above 20, else
`InvalidCharacters` exactly when some trimmed character is outside the
class, and succeeds otherwise. -/
theorem validateName_spec (l : List Char) (fn : String) :
    ((jsTrim l).length < 2 →
      validateName (.str l) fn = ⟨false, some (fn ++ " must be at least 2 characters")⟩) ∧
    (20 < (jsTrim l).length →
      validateName (.str l) fn = ⟨false, some (fn ++ " must not exceed 20 characters")⟩) ∧
    (2 ≤ (jsTrim l).length → (jsTrim l).length ≤ 20 →
      (∀ c ∈ jsTrim l, nameChar c = true) →
      validateName (.str l) fn = ⟨true, none⟩) ∧
    (2 ≤ (jsTrim l).length → (jsTrim l).length ≤ 20 →
      (∃ c ∈ jsTrim l, nameChar c = false) →
      validateName (.str l) fn = ⟨false, some (fn ++ " can only contain letters")⟩) := by
  refine ⟨?_, ?_, ?_, ?_⟩
  · intro hshort
    unfold validateName
    dsimp only
    rw [if_pos hshort]
  · intro hlong
    unfold validateName
    dsimp only
    rw [if_neg (by omega), if_pos hlong]
  · intro h2 h20 hall
    have hne : jsTrim l ≠ [] := by
      intro h
      rw [h] at h2
      simp at h2
    have htest : nameRegexTest (jsTrim l) = true := by
      unfold nameRegexTest
      rw [Bool.and_eq_true, List.all_eq_true]
      exact ⟨by simpa using hne, hall⟩
    unfold validateName
    dsimp only
    rw [if_neg (by omega), if_neg (by omega), if_neg (by simp [htest])]
  · rintro h2 h20 ⟨c, hc, hfc⟩
    have htest : nameRegexTest (jsTrim l) = false := by
      unfold nameRegexTest
      rw [Bool.and_eq_false_iff]
      right
      rw [← Bool.not_eq_true, List.all_eq_true]
      intro hall
      rw [hall c hc] at hfc
      cases hfc
    unfold validateName
    dsimp only
    rw [if_neg (by omega), if_neg (by omega), if_pos (by simp [htest])]

/-- Witness for C7: `" a "` is too short after trimming, a 21-letter name
is too long, `"Jo"` is accepted, and `"A3B"` fails the character check. -/
theorem validateName_spec_witness :
    validateName (.str [' ', 'a', ' ']) "Name" =
      ⟨false, some ("Name" ++ " must be at least 2 characters")⟩ ∧
    validateName (.str (List.replicate 21 'a')) "Name" =
      ⟨false, some ("Name" ++ " must not exceed 20 characters")⟩ ∧
    validateName (.str ['J', 'o']) "Name" = ⟨true, none⟩ ∧
    validateName (.str ['A', '3', 'B']) "Name" =
      ⟨false, some ("Name" ++ " can only contain letters")⟩ :=
  ⟨(validateName_spec [' ', 'a', ' '] "Name").1 (by decide),
    (validateName_spec (List.replicate 21 'a') "Name").2.1 (by decide),
    (validateName_spec ['J', 'o'] "Name").2.2.1 (by decide) (by decide) (by decide),
    (validateName_spec ['A', '3', 'B'] "Name").2.2.2 (by decide) (by decide)
      ⟨'3', by decide, by decide⟩⟩

end Blueprint
